import Mathlib

/-!
Imagery — Directory Entry Resolution & Pagination Cache: a shallow embedding

This file embeds the core of the `imagery` repository — the `ImageryCache`
class (`src/unnamed/part_015`, the most complete iteration, together with its
helpers from `src/src/scripts/utilities/views/helpers.js`) and the renderer
guard `DirectoryManager.notAllowed`
(`src/src/scripts/pages/directory_screen/classes/directory_manager.js`) —
and proves properties of the resulting definitions.

Modelling conventions:
* JavaScript objects become structures.  A property that is never set by the
  code (`persistData` on sessions, `name` on resolved entries) is modelled as
  an `Option` field that the code always constructs as `none`; reading it in
  JS yields `undefined`, and `undefined === s` for a string `s` is `false`.
* The filesystem is a parameter: `read` models `readFolder` (which already
  converts an `EPERM` failure into an empty listing, and rethrows anything
  else — the `.error` case), `stat` models `fs.promises.stat` (`none` = the
  call failed and the `catch` branch runs).
* Thrown JS exceptions are returned as explicit outcomes next to the state
  reached at the throw point (JS exceptions do not roll back mutations).
* The async `#loadThumbnail` call is never awaited; the resulting `Promise`
  is replaced by `''` by the `typeof entry.cachedThumbnail === 'object'`
  check before `#pushNewEntry` returns, so `cachedThumbnail` is the
  thumbnail path for images and `""` otherwise.
* The fire-and-forget database update in `#pushNewEntry` is modelled
  synchronously.
* `readFolderCalls` is a ghost instrumentation counter: it counts the
  `readFolder` invocations performed by `prepareEntries` (cold path) and by
  the nested-thumbnail BFS inside `next`.
-/

/-! ## File classification (`helpers.js`) -/

/-- Split a character list on a separator (the list-level counterpart of
`String.splitOn` for a one-character separator, written out so that it
evaluates inside the kernel). -/
def splitChars (sep : Char) : List Char → List (List Char)
  | [] => [[]]
  | c :: cs =>
    match splitChars sep cs with
    | [] => [[]]
    | g :: gs => if c = sep then [] :: g :: gs else (c :: g) :: gs

/-- ASCII lowercasing of one character (`String.prototype.toLowerCase` on
the ASCII extensions the allow-lists contain). -/
def charLower (c : Char) : Char :=
  if 65 ≤ c.toNat ∧ c.toNat ≤ 90 then Char.ofNat (c.toNat + 32) else c

/-- Lowercase a string character by character. -/
def lowerStr (s : String) : String := String.mk (s.data.map charLower)

/-- Model of node's `path.extname` restricted to plain file names: the final
`"."`-suffix, empty when there is no dot or the only dot is the leading one. -/
def extname (s : String) : String :=
  match splitChars (Char.ofNat 46) s.data with
  | [] => ""
  | [_] => ""
  | [[], _] => ""
  | ps => "." ++ String.mk (ps.getLastD [])

/-- `isImageFile` from `helpers.js`: lowercase extension in the image set. -/
def isImageFile (filename : String) : Bool :=
  [".jpg", ".jpeg", ".png", ".gif", ".webp", ".bmp"].contains
    (lowerStr (extname filename))

/-- `isVideoFile` from `helpers.js`: lowercase extension in the video set. -/
def isVideoFile (filename : String) : Bool :=
  [".mp4", ".mkv", ".avi", ".mov", ".flv", ".wmv", ".webm", ".ts"].contains
    (lowerStr (extname filename))

/-- `isMediaFile` from `helpers.js`. -/
def isMediaFile (filename : String) : Bool :=
  isImageFile filename || isVideoFile filename

/-- `FileGroup.IMAGE` constant from `helpers.js`. -/
def FileGroup.IMAGE : String := "image"

/-- `FileGroup.VIDEO` constant from `helpers.js`. -/
def FileGroup.VIDEO : String := "video"

/-! ## Paths (`path.join`, `path.dirname`) -/

/-- Model of `path.join(parent, child)` for the uses in the cache (always a
directory plus an entry name). -/
def pjoin (a b : String) : String := a ++ "/" ++ b

/-- Rejoin path segments with `/` (the relevant case of
`String.intercalate`). -/
def intercalateSlash : List (List Char) → List Char
  | [] => []
  | [g] => g
  | g :: gs => g ++ (Char.ofNat 47) :: intercalateSlash gs

/-- Model of node's `path.dirname`: everything before the last separator,
`"."` when there is none, `"/"` when only the leading separator remains. -/
def dirname (s : String) : String :=
  let ps := (splitChars (Char.ofNat 47) s.data).dropLast
  if ps.isEmpty then "."
  else
    let d := intercalateSlash ps
    if d = [] then "/" else String.mk d

/-- JS `a || b` for a possibly-null string `a` (`null` and `""` are falsy). -/
def jsOrElse (a : Option String) (b : String) : String :=
  match a with
  | none => b
  | some s => if s = "" then b else s

/-! ## Filesystem interface -/

deriving instance DecidableEq for Except

/-- One raw entry as produced by `fs.promises.readdir(_, withFileTypes)`. -/
structure FSDirent where
  name : String
  isFile : Bool
  isDirectory : Bool
deriving Repr, DecidableEq

/-- The fields of `fs.promises.stat` that the cache reads. -/
structure Stats where
  size : Nat
  birthtime : String
  mtime : String
deriving Repr, DecidableEq

/-- The filesystem as seen through `helpers.js`: `read` models `readFolder`
(`EPERM` is already absorbed into an empty listing there; `.error` is any
other failure, which `readFolder` rethrows), `stat` models `fs.promises.stat`
(`none` = the stat failed). -/
structure FileSystem where
  read : String → Except Unit (List FSDirent)
  stat : String → Option Stats

/-- A dirent that `counts as media` for the BFS: a file whose name passes
`isMediaFile`. -/
def isMediaDirent (d : FSDirent) : Bool := d.isFile && isMediaFile d.name

/-! ## Data model (`part_015` typedefs) -/

/-- `ImageryDirent`: one classified raw entry stored in `allEntries`. -/
structure ImageryDirent where
  index : Nat
  name : String
  isFile : Bool
  isCompatibleFile : Bool
  isDirectory : Bool
deriving Repr, DecidableEq

/-- `ImageryEntry`: a resolved display record.  The metadata fields are
`none` when the `stat` call failed (the code stores `''` then).  The `name`
field models the fact that the objects built by `#pushNewEntry` carry no
`name` property at all: reading `item.name` in JS yields `undefined`, which
is modelled as this field being `none` on every entry the code constructs. -/
structure ImageryEntry where
  index : Nat
  title : String
  destination : String
  isMedia : Bool
  path : String
  thumbnailType : String
  thumbnailPath : String
  cachedThumbnail : String
  size : Option Nat
  dateCreated : Option String
  dateModified : Option String
  dateTaken : Option String
  name : Option String
deriving Repr, DecidableEq

/-- `ImageryEntriesCache` (one folder session).  `persistData` is read by
`prepareEntries` but never written anywhere in the source: every session the
code builds leaves it `undefined`, modelled as `none`. -/
structure EntriesCache where
  currentIndex : Nat
  processed : Nat
  okEntries : List ImageryEntry
  allEntries : List ImageryDirent
  persistData : Option Bool
deriving Repr, DecidableEq

/-! ## Association-list maps (JS `Map` / the sequelize tables) -/

/-- Lookup in an association list (JS `Map.get`, `undefined` = `none`). -/
def mget {β : Type} : List (String × β) → String → Option β
  | [], _ => none
  | (k, v) :: rest, key => if k = key then some v else mget rest key

/-- Insert-or-replace in an association list (JS `Map.set`). -/
def mset {β : Type} : List (String × β) → String → β → List (String × β)
  | [], key, v => [(key, v)]
  | (k, w) :: rest, key, v =>
    if k = key then (key, v) :: rest else (k, w) :: mset rest key v

/-- Delete from an association list (JS `Map.delete` / destroying a DB row). -/
def mdel {β : Type} : List (String × β) → String → List (String × β)
  | [], _ => []
  | (k, w) :: rest, key =>
    if k = key then mdel rest key else (k, w) :: mdel rest key

/-! ## Global state of the `ImageryCache` singleton -/

/-- JS exceptions that can cross the modelled operations. -/
inductive JsErr where
  | err (msg : String)
  | typeError (msg : String)
deriving Repr, DecidableEq

/-- State of the `ImageryCache` singleton plus its sequelize tables.  The
database is modelled as a map from a location path to the list of its
`Entries` rows in insertion order.  `readFolderCalls` is ghost
instrumentation counting `readFolder` invocations. -/
structure ImageryState where
  memory : List (String × EntriesCache)
  activePath : String
  db : List (String × List ImageryEntry)
  readFolderCalls : Nat
deriving Repr, DecidableEq

/-- The state the singleton is constructed in. -/
def initialState : ImageryState := ⟨[], "", [], 0⟩

/-- Result of one `next()` call at the pull boundary. -/
inductive NextOutcome where
  | entry (e : ImageryEntry)
  | nullish
  | done
  | thrown (e : JsErr)
deriving Repr, DecidableEq

/-! ## `#populateMetadata` and `#pushNewEntry` -/

/-- The four metadata fields produced by `#populateMetadata`. -/
structure MetaData where
  size : Option Nat
  dateCreated : Option String
  dateModified : Option String
  dateTaken : Option String
deriving Repr, DecidableEq

/-- `#populateMetadata`: best-effort stat; on failure all four fields degrade
to empty values (`none`) and resolution continues. -/
def populateMetadata (fs : FileSystem) (path : String) : MetaData :=
  match fs.stat path with
  | some st => ⟨some st.size, some st.birthtime, some st.mtime, some st.birthtime⟩
  | none => ⟨none, none, none, none⟩

/-- JS `item.name === title` where `item.name` may be `undefined`:
`undefined === s` is `false` for every string `s`. -/
def jsStrictEqOptStr (o : Option String) (s : String) : Bool :=
  match o with
  | some x => x = s
  | none => false

/-- JS `Array.prototype.findIndex`: index of the first element satisfying
the predicate, scanning left to right. -/
def findIdxFrom (p : ImageryEntry → Bool) : List ImageryEntry → Nat → Option Nat
  | [], _ => none
  | x :: xs, i => if p x then some i else findIdxFrom p xs (i + 1)

/-- The record object `#pushNewEntry` builds: the eight arguments, the
best-effort metadata, and the `cachedThumbnail` resolution (the un-awaited
`#loadThumbnail` promise is reset to `''` before return unless the image
branch stored the path directly).  No `name` property is ever set. -/
def pushedEntry (fs : FileSystem) (index : Nat) (title destination : String)
    (isMedia : Bool) (path thumbType thumbPath : String) : ImageryEntry :=
  let md := populateMetadata fs path
  let cached := if thumbType = FileGroup.IMAGE then thumbPath else ""
  ⟨index, title, destination, isMedia, path, thumbType, thumbPath, cached,
    md.size, md.dateCreated, md.dateModified, md.dateTaken, none⟩

/-- `#pushNewEntry` from `part_015`.  `sessionKey` is the map key under which
the captured `pathCache` object lives (the JS argument is a live reference
into `memory`).  The replace lookup runs `findIndex(item => item.name ===
title)`; constructed entries carry no `name` property, so the comparison is
`undefined === title`.  The trailing `Location.findOne(...).then(...)` update
re-reads `this.#activePath` and only updates rows that already exist. -/
def pushNewEntry (fs : FileSystem) (st : ImageryState) (sessionKey : String)
    (index : Nat) (title destination : String) (isMedia : Bool)
    (path thumbType thumbPath : String) : ImageryState × ImageryEntry :=
  let entry := pushedEntry fs index title destination isMedia path thumbType thumbPath
  let st1 :=
    match mget st.memory sessionKey with
    | none => st
    | some s =>
      let ok :=
        match findIdxFrom (fun (item : ImageryEntry) => jsStrictEqOptStr item.name title)
            s.okEntries 0 with
        | some j => s.okEntries.set j entry
        | none => s.okEntries ++ [entry]
      let s1 := { s with okEntries := ok, currentIndex := s.currentIndex + 1 }
      { st with memory := mset st.memory sessionKey s1 }
  let st2 :=
    match mget st1.db st1.activePath with
    | none => st1
    | some rows =>
      let rows1 := rows.map (fun (r : ImageryEntry) => if r.title = title then entry else r)
      { st1 with db := mset st1.db st1.activePath rows1 }
  (st2, entry)

/-! ## Nested-thumbnail BFS (the directory branch of `next`) -/

/-- What the BFS loop found: the dequeued folder that contains media, the
value of `foldersTraversed` at that moment, and the name of the first
compatible media file of that folder in enumeration order. -/
structure BfsFound where
  folder : String
  traversed : Nat
  firstMediaName : String
deriving Repr, DecidableEq

/-- The body of the `while (queue.length > 0 && foldersTraversed < 10)`
loop of `next`'s directory branch, with the number of remaining permitted
iterations (`10 - foldersTraversed`, the counter only ever grows) passed as
structural fuel so that the definition evaluates.  The loop body checks
`hasMedia` by scanning the children; that scan succeeds exactly when `find?`
on the same predicate does (the early `break` only fires once `hasMedia` is
already set).  Returns the search outcome together with the number of
dequeues performed (each dequeue is one `readFolder` call).
`foldersTraversed` is incremented only by iterations that found no media; an
iteration that finds media returns from `next`. -/
def bfsAux (fs : FileSystem) : Nat → List String → Nat →
    Except Unit (Option BfsFound) × Nat
  | _, [], _ => (.ok none, 0)
  | 0, _ :: _, _ => (.ok none, 0)
  | fuel + 1, q :: rest, t =>
    match fs.read q with
    | .error _ => (.error (), 1)
    | .ok subs =>
      match subs.find? isMediaDirent with
      | some m => (.ok (some ⟨q, t, m.name⟩), 1)
      | none =>
        let res := bfsAux fs fuel
          (rest ++ (subs.filter (fun s => s.isDirectory)).map (fun s => pjoin q s.name))
          (t + 1)
        (res.1, res.2 + 1)

/-- The BFS loop entered with `foldersTraversed = t`: the guard `t < 10`
holds exactly when `10 - t` is a positive fuel. -/
def bfsLoop (fs : FileSystem) (queue : List String) (t : Nat) :
    Except Unit (Option BfsFound) × Nat :=
  bfsAux fs (10 - t) queue t

/-! ## `next()` -/

/-- The synchronous prefix of `next()` up to its first suspension point.
`immediate` = the call finishes without suspending (guard throws, cached
entry served, done sentinel, incompatible file skipped).  `pendingPush` = the
compatible-file branch about to `await` inside `#pushNewEntry`, with every
argument already evaluated (in particular `destination` has read
`this.#activePath`).  `pendingDir` = the directory branch about to `await`
its first `readFolder`. -/
inductive Phase1Result where
  | immediate (st : ImageryState) (out : NextOutcome)
  | pendingPush (st : ImageryState) (sessionKey : String) (index : Nat)
      (title destination : String) (isMedia : Bool)
      (path thumbType thumbPath : String)
  | pendingDir (st : ImageryState) (sessionKey : String)
      (title entryPath : String)

/-- The synchronous prefix of `next()` from `part_015`: the two guard throws,
the already-processed branch (return the entry at `currentIndex`, advance),
the `Nothing more to process` sentinel, the unreachable missing-raw-entry
throw, `cache.processed++`, and branch selection on the raw entry. -/
def nextPhase1 (st : ImageryState) : Phase1Result :=
  if st.activePath = "" then
    .immediate st (.thrown (.err "Cannot find active path"))
  else
    match mget st.memory st.activePath with
    | none => .immediate st (.thrown (.err "Cannot find cache for current path"))
    | some cache =>
      match cache.okEntries[cache.currentIndex]? with
      | some e =>
        let c1 := { cache with currentIndex := cache.currentIndex + 1 }
        .immediate ({ st with memory := mset st.memory st.activePath c1 }) (.entry e)
      | none =>
        if cache.allEntries.length ≤ cache.processed then
          let c1 := { cache with processed := cache.allEntries.length }
          .immediate ({ st with memory := mset st.memory st.activePath c1 }) .done
        else
          match cache.allEntries[cache.processed]? with
          | none => .immediate st (.thrown (.err "Cannot find entry to process"))
          | some current =>
            let entryPath := pjoin st.activePath current.name
            let c1 := { cache with processed := cache.processed + 1 }
            let st1 := { st with memory := mset st.memory st.activePath c1 }
            if current.isFile then
              if current.isCompatibleFile = false then .immediate st1 .nullish
              else
                .pendingPush st1 st.activePath cache.currentIndex current.name
                  st.activePath true entryPath
                  (if isVideoFile entryPath then FileGroup.VIDEO else FileGroup.IMAGE)
                  entryPath
            else if current.isDirectory then
              .pendingDir st1 st.activePath current.name entryPath
            else .immediate st1 .nullish

/-- Resume the compatible-file branch: run `#pushNewEntry` and return the
entry. -/
def resumePush (fs : FileSystem) (st : ImageryState) (sessionKey : String)
    (index : Nat) (title destination : String) (isMedia : Bool)
    (path thumbType thumbPath : String) : ImageryState × NextOutcome :=
  let r := pushNewEntry fs st sessionKey index title destination isMedia path thumbType thumbPath
  (r.1, .entry r.2)

/-- Resume the directory branch: run the BFS; on a fatal read the exception
propagates out of `next`; with no media within the bound return `null`; on a
find, build the folder entry exactly as the code does (`firstValidParent` is
set only when the find happened after the first dequeue, and
`firstValidParent || currentFolderPath` falls back on a falsy value).  The
`index` and `destination` arguments of this `#pushNewEntry` call are
evaluated after the awaits, re-reading the live session object and
`this.#activePath`. -/
def resumeDir (fs : FileSystem) (st : ImageryState) (sessionKey : String)
    (title entryPath : String) : ImageryState × NextOutcome :=
  let bfs := bfsLoop fs [entryPath] 0
  let st1 := { st with readFolderCalls := st.readFolderCalls + bfs.2 }
  match bfs.1 with
  | .error _ => (st1, .thrown (.err "readFolder failed"))
  | .ok none => (st1, .nullish)
  | .ok (some f) =>
    let firstValidParent : Option String :=
      if 0 < f.traversed then some (dirname f.folder) else none
    let thumbPath := pjoin f.folder f.firstMediaName
    let entryDest := jsOrElse firstValidParent f.folder
    let thumbType := if isVideoFile thumbPath then FileGroup.VIDEO else FileGroup.IMAGE
    let idx := match mget st1.memory sessionKey with
      | some c => c.currentIndex
      | none => 0
    let r := pushNewEntry fs st1 sessionKey idx title st1.activePath false
      entryDest thumbType thumbPath
    (r.1, .entry r.2)

/-- `next()` from `part_015`: the synchronous prefix followed immediately by
its own resumption (no interleaved operation). -/
def next (fs : FileSystem) (st : ImageryState) : ImageryState × NextOutcome :=
  match nextPhase1 st with
  | .immediate st1 out => (st1, out)
  | .pendingPush st1 k i title dest isM path tt tp =>
    resumePush fs st1 k i title dest isM path tt tp
  | .pendingDir st1 k title ep => resumeDir fs st1 k title ep

/-! ## `prepareEntries`, `save`, `#loadCachedEntry` -/

/-- `#loadCachedEntry` from `part_015`.  A missing location degrades to an
empty session.  With the location present, the `lastVisited` refresh (a
timestamp write with no bearing on the modelled state) is followed by
`Entries.findAll({ where: ..., order: ["title", "DESC"] })`.  That is the
single-bracket sequelize `order` form, in which each array element is a
separate order term, so `DESC` is treated as a *column*
(`ORDER BY entries.title, entries.DESC`); the `entries` table
(`src/models/entries.js`) has no such column, the query rejects with a
database error, and the method does not catch it — so a present location row
makes the load throw instead of returning the persisted rows. -/
def loadCachedEntry (db : List (String × List ImageryEntry)) (path : String) :
    Except JsErr EntriesCache :=
  match mget db path with
  | none => .ok ⟨0, 0, [], [], none⟩
  | some _ => .error (.err "no such column: DESC")

/-- Classify raw dirents as `prepareEntries` does:
`entries.map((entry, index) => ...)`. -/
def classifyFrom : List FSDirent → Nat → List ImageryDirent
  | [], _ => []
  | e :: rest, i =>
    ⟨i, e.name, e.isFile, e.isFile && isMediaFile e.name, e.isDirectory⟩ ::
      classifyFrom rest (i + 1)

/-- Stage 1 of `prepareEntries`: when switching away from a different
non-empty active path, read `persistData` off the outgoing session —
a `TypeError` on `undefined` when the session is missing, a drop of the
session and its database record when `persistData === false`. -/
def prepStage1 (st : ImageryState) (folderPath : String) :
    ImageryState × Option JsErr :=
  if st.activePath ≠ "" ∧ st.activePath ≠ folderPath then
    match mget st.memory st.activePath with
    | none => (st, some (.typeError "Cannot read properties of undefined"))
    | some s =>
      if s.persistData = some false then
        let m1 := mdel st.memory st.activePath
        let d1 := mdel st.db st.activePath
        ({ st with memory := m1, db := d1 }, none)
      else (st, none)
  else (st, none)

/-- Stages 2–4 of `prepareEntries`: warm reopen (cursor reset), database hit,
or cold open (switch the active path, then enumerate).  On the database hit
`#loadCachedEntry` is awaited *before* `this.memory.set` and
`this.#activePath = folderPath`; since the branch is guarded by
`#pathInDatabase`, the location row exists and the load rejects over its
invalid order clause, so the call throws with the active path and memory
unchanged. -/
def prepOpen (fs : FileSystem) (st1 : ImageryState) (folderPath : String) :
    ImageryState × Option JsErr :=
  match mget st1.memory folderPath with
  | some s =>
    let m1 := mset st1.memory folderPath ({ s with currentIndex := 0 })
    ({ st1 with memory := m1, activePath := folderPath }, none)
  | none =>
    match mget st1.db folderPath with
    | some _ =>
      match loadCachedEntry st1.db folderPath with
      | .error e => (st1, some e)
      | .ok pathEntriesCache =>
        let m1 := mset st1.memory folderPath pathEntriesCache
        ({ st1 with memory := m1, activePath := folderPath }, none)
    | none =>
      let st2 := { st1 with activePath := folderPath }
      match fs.read folderPath with
      | .error _ =>
        ({ st2 with readFolderCalls := st2.readFolderCalls + 1 },
          some (.err "readFolder failed"))
      | .ok entries =>
        let m1 := mset st2.memory folderPath ⟨0, 0, [], classifyFrom entries 0, none⟩
        ({ st2 with readFolderCalls := st2.readFolderCalls + 1, memory := m1 }, none)

/-- `prepareEntries(folderPath)` from `part_015`: stage 1 (switch-away
bookkeeping, which can throw before anything is switched), then the warm /
database / cold open.  On the cold path the active path is switched *before*
`readFolder`, so an enumeration failure leaves the new path active with no
session. -/
def prepareEntries (fs : FileSystem) (st : ImageryState) (folderPath : String) :
    ImageryState × Option JsErr :=
  match prepStage1 st folderPath with
  | (st1, some e) => (st1, some e)
  | (st1, none) => prepOpen fs st1 folderPath

/-- One `next()` call that is in flight when the active folder is switched:
the synchronous prefix of `next()` runs, then a complete
`prepareEntries(newPath)` runs during the suspension (the `await` on the
`stat` inside `#pushNewEntry`, or the first `readFolder` of the BFS), then
the suspended call resumes with its captured locals.  When the prefix never
suspends, the switch simply runs after the completed call.  Returns the final
state, the outcome of the `prepareEntries` call, and the outcome of the
`next()` call. -/
def nextDuringSwitch (fs : FileSystem) (st : ImageryState) (newPath : String) :
    ImageryState × Option JsErr × NextOutcome :=
  match nextPhase1 st with
  | .immediate st1 out =>
    let p := prepareEntries fs st1 newPath
    (p.1, p.2, out)
  | .pendingPush st1 k i title dest isM path tt tp =>
    let p := prepareEntries fs st1 newPath
    let r := resumePush fs p.1 k i title dest isM path tt tp
    (r.1, p.2, r.2)
  | .pendingDir st1 k title ep =>
    let p := prepareEntries fs st1 newPath
    let r := resumeDir fs p.1 k title ep
    (r.1, p.2, r.2)

/-- `DirectoryManager.notAllowed` from the renderer: a card is rejected when
a card with the same title is already in the DOM, or when the entry's
`destination` is not the folder the container currently shows. -/
def notAllowed (existsInDom : Bool) (cardDestination boxPath : String) : Bool :=
  existsInDom || cardDestination ≠ boxPath

/-! ## Generic lemmas about the association-list maps -/

theorem mget_mset_self {β : Type} (l : List (String × β)) (k : String) (v : β) :
    mget (mset l k v) k = some v := by
  induction l with
  | nil => simp [mget, mset]
  | cons hd tl ih =>
    obtain ⟨k', w⟩ := hd
    by_cases h : k' = k
    · simp [mget, mset, h]
    · simp [mget, mset, h, ih]

theorem mget_mset_ne {β : Type} (l : List (String × β)) (k k' : String) (v : β)
    (h : k' ≠ k) : mget (mset l k v) k' = mget l k' := by
  induction l with
  | nil => simp [mget, mset, show ¬ k = k' from fun hh => h hh.symm]
  | cons hd tl ih =>
    obtain ⟨k0, w⟩ := hd
    by_cases h0 : k0 = k
    · subst h0
      simp [mget, mset, show ¬ k0 = k' from fun hh => h hh.symm]
    · simp [mget, mset, h0, ih]

theorem mget_mdel_ne {β : Type} (l : List (String × β)) (k k' : String)
    (h : k' ≠ k) : mget (mdel l k) k' = mget l k' := by
  induction l with
  | nil => simp [mdel]
  | cons hd tl ih =>
    obtain ⟨k0, w⟩ := hd
    by_cases h0 : k0 = k
    · subst h0
      simp [mdel, mget, ih, show ¬ k0 = k' from fun hh => h hh.symm]
    · simp [mdel, mget, h0, ih]

/-! ## Concrete fixtures -/

/-- A filesystem on which every folder reads as empty and every stat fails. -/
def emptyFS : FileSystem := ⟨fun _ => .ok [], fun _ => none⟩

/-- A filesystem on which every folder read fails fatally. -/
def failFS : FileSystem := ⟨fun _ => .error (), fun _ => none⟩

/-- A filesystem on which every folder contains exactly one sub-folder named
`d` and no files: the BFS can never find media and never empties its queue. -/
def deepFS : FileSystem := ⟨fun _ => .ok [⟨"d", false, true⟩], fun _ => none⟩

/-- The entry `#pushNewEntry` builds for `a.jpg` under `/p` (with failing
stats). -/
def entryAJpg : ImageryEntry :=
  ⟨0, "a.jpg", "/p", true, "/p/a.jpg", "image", "/p/a.jpg", "/p/a.jpg",
    none, none, none, none, none⟩

/-- **C2** (code bug, evaluated at the failing input): the idempotent-replace
rule does not hold.  `#pushNewEntry` looks the old record up with
`findIndex(item => item.name === title)`, but the records it stores carry a
`title` property and no `name` property, so the lookup compares `undefined`
to the title and never finds anything.  Starting from a session whose
`okEntries` already contains an entry titled `a.jpg` and resolving `a.jpg`
again, the cache ends with two entries of the same title instead of an
in-place overwrite. -/
theorem c2_push_duplicates_existing_title :
    (mget (pushNewEntry emptyFS ⟨[("/p", ⟨1, 1, [entryAJpg], [], none⟩)], "/p", [], 0⟩
        "/p" 1 "a.jpg" "/p" true "/p/a.jpg" FileGroup.IMAGE "/p/a.jpg").1.memory "/p").map
      (fun s => s.okEntries.map (fun e => e.title)) = some ["a.jpg", "a.jpg"] := by
  decide

/-! ## C7 -/

/-- **C7** (code bug, evaluated at the failing input): switching the active
folder away from a session that was never explicitly flagged does *not* drop
it.  `prepareEntries` only drops the outgoing session when
`persistData === false`, but no code path ever sets `persistData`, so the
field is `undefined` on every session the cache creates and the strict
comparison fails.  Switching from `/a` (fresh session, database record
present) to `/b` keeps both the in-memory session and the database record of
`/a`. -/
theorem c7_default_session_not_dropped_on_switch :
    (mget (prepareEntries emptyFS ⟨[("/a", ⟨0, 0, [], [], none⟩)], "/a", [("/a", [])], 0⟩
        "/b").1.memory "/a" = some ⟨0, 0, [], [], none⟩)
    ∧ (mget (prepareEntries emptyFS ⟨[("/a", ⟨0, 0, [], [], none⟩)], "/a", [("/a", [])], 0⟩
        "/b").1.db "/a" = some [])
    ∧ (prepareEntries emptyFS ⟨[("/a", ⟨0, 0, [], [], none⟩)], "/a", [("/a", [])], 0⟩
        "/b").1.activePath = "/b" := by
  refine ⟨by decide, by decide, by decide⟩

/-! ## C8 -/

/-- **C3** (counterexample): the pull boundary does throw.  In the state the
cache is constructed in (no active path), `next()` throws
`Cannot find active path`; with an active path whose session is missing it
throws `Cannot find cache for current path`.  The `next-content` IPC handler
registers no catch, so the rejection crosses the boundary. -/
theorem c3_next_throws :
    (next emptyFS initialState).2 = .thrown (.err "Cannot find active path")
    ∧ (next emptyFS ⟨[], "/a", [], 0⟩).2 =
        .thrown (.err "Cannot find cache for current path") := by
  refine ⟨by decide, by decide⟩

/-! ## C10 (counterexample) -/

/-- **C10** (counterexample): `prepareEntries(folderPath)` can complete (by
throwing) with the active path still pointing at the previous folder, in two
ways.  (1) A failed cold open of `/a` leaves `/a` active with no in-memory
session (a state the claim itself describes); the following
`prepareEntries("/b")` then throws a `TypeError` reading `.persistData` off
`undefined` *before* the switch, so its completion leaves the active path at
`/a`, not `/b`.  (2) With a live session on `/a` and a persisted database
record for `/b` that is not in memory, `prepareEntries("/b")` passes the
stage-1 guard but awaits `#loadCachedEntry("/b")` *before*
`this.#activePath = folderPath`; that load rejects over its invalid
`order: ["title", "DESC"]` clause, so the call throws with `/a` still
active and no session created for `/b`. -/
theorem c10_typeError_before_switch :
    ((prepareEntries failFS initialState "/a").1.activePath = "/a"
      ∧ (prepareEntries failFS initialState "/a").2 = some (.err "readFolder failed")
      ∧ mget (prepareEntries failFS initialState "/a").1.memory "/a" = none)
    ∧ ((prepareEntries emptyFS (prepareEntries failFS initialState "/a").1 "/b").2 =
        some (.typeError "Cannot read properties of undefined")
      ∧ (prepareEntries emptyFS (prepareEntries failFS initialState "/a").1 "/b").1.activePath = "/a"
      ∧ "/a" ≠ "/b")
    ∧ ((prepareEntries emptyFS ⟨[("/a", ⟨0, 0, [], [], none⟩)], "/a", [("/b", [])], 0⟩ "/b").2 =
        some (.err "no such column: DESC")
      ∧ (prepareEntries emptyFS ⟨[("/a", ⟨0, 0, [], [], none⟩)], "/a", [("/b", [])], 0⟩ "/b").1.activePath = "/a"
      ∧ mget (prepareEntries emptyFS ⟨[("/a", ⟨0, 0, [], [], none⟩)], "/a", [("/b", [])], 0⟩ "/b").1.memory "/b" = none) := by
  refine ⟨⟨by decide, by decide, by decide⟩, ⟨by decide, by decide, by decide⟩,
    ⟨by decide, by decide, by decide⟩⟩

/-! ## Lemmas about the bounded BFS -/

/-- Each loop entry performs at most `fuel` dequeues. -/
theorem bfsAux_count_le (fs : FileSystem) :
    ∀ (fuel : Nat) (q : List String) (t : Nat), (bfsAux fs fuel q t).2 ≤ fuel := by
  intro fuel
  induction fuel with
  | zero =>
    intro q t
    cases q <;> simp [bfsAux]
  | succ n ih =>
    intro q t
    cases q with
    | nil => simp [bfsAux]
    | cons hd rest =>
      simp only [bfsAux]
      split
      · simp
      · rename_i subs heq
        split
        · simp
        · rename_i hm
          have hrec := ih
            (rest ++ (subs.filter (fun s => s.isDirectory)).map (fun s => pjoin hd s.name))
            (t + 1)
          simp only []
          omega

/-- The BFS performs at most `10 - t` dequeues when entered with counter
`t`. -/
theorem bfsLoop_count_le (fs : FileSystem) (q : List String) (t : Nat) :
    (bfsLoop fs q t).2 ≤ 10 - t :=
  bfsAux_count_le fs (10 - t) q t

/-- With every `readFolder` call succeeding, the BFS never propagates a
fatal error. -/
theorem bfsAux_no_fatal (fs : FileSystem)
    (hfs : ∀ p, ∃ l, fs.read p = .ok l) :
    ∀ (fuel : Nat) (q : List String) (t : Nat), (bfsAux fs fuel q t).1 ≠ .error () := by
  intro fuel
  induction fuel with
  | zero =>
    intro q t
    cases q <;> simp [bfsAux]
  | succ n ih =>
    intro q t
    cases q with
    | nil => simp [bfsAux]
    | cons hd rest =>
      simp only [bfsAux]
      split
      · rename_i a hr
        obtain ⟨l, hl⟩ := hfs hd
        rw [hr] at hl
        exact Except.noConfusion hl
      · rename_i subs heq
        split
        · simp
        · rename_i hm
          exact ih _ (t + 1)

/-- `bfsLoop` never propagates a fatal error on a healthy filesystem. -/
theorem bfsLoop_no_fatal (fs : FileSystem)
    (hfs : ∀ p, ∃ l, fs.read p = .ok l) (q : List String) (t : Nat) :
    (bfsLoop fs q t).1 ≠ .error () :=
  bfsAux_no_fatal fs hfs (10 - t) q t

/-- What a successful BFS find guarantees: the found folder reads back with
a first compatible media child that names the thumbnail; the stored
`traversed` count is at least the entry counter; and a find on the very
first dequeue is the head of the initial queue. -/
theorem bfsAux_found (fs : FileSystem) :
    ∀ (fuel : Nat) (q : List String) (t : Nat) (f : BfsFound),
    (bfsAux fs fuel q t).1 = .ok (some f) →
    (∃ subs m, fs.read f.folder = .ok subs ∧ subs.find? isMediaDirent = some m
      ∧ f.firstMediaName = m.name)
    ∧ t ≤ f.traversed
    ∧ (f.traversed = t → ∃ rest, q = f.folder :: rest) := by
  intro fuel
  induction fuel with
  | zero =>
    intro q t f h
    cases q <;> simp [bfsAux] at h
  | succ n ih =>
    intro q t f h
    cases q with
    | nil => simp [bfsAux] at h
    | cons hd rest =>
      simp only [bfsAux] at h
      split at h
      · simp at h
      · rename_i subs hr
        split at h
        · rename_i m hm
          simp at h
          subst h
          exact ⟨⟨subs, m, hr, hm, rfl⟩, le_rfl, fun _ => ⟨rest, rfl⟩⟩
        · rename_i hm
          simp only [] at h
          obtain ⟨h1, h2, h3⟩ := ih _ (t + 1) f h
          exact ⟨h1, by omega, fun ht => absurd h2 (by omega)⟩

/-- What a successful `bfsLoop` find guarantees (entered at counter 0: a
find on the very first dequeue is the head of the initial queue). -/
theorem bfsLoop_found (fs : FileSystem) (q : List String) (t : Nat)
    (f : BfsFound) (h : (bfsLoop fs q t).1 = .ok (some f)) :
    (∃ subs m, fs.read f.folder = .ok subs ∧ subs.find? isMediaDirent = some m
      ∧ f.firstMediaName = m.name)
    ∧ t ≤ f.traversed
    ∧ (f.traversed = t → ∃ rest, q = f.folder :: rest) :=
  bfsAux_found fs (10 - t) q t f h

/-! ## Branch characterizations of `next` -/

/-- `findIndex` misses every entry that fails the predicate. -/
theorem findIdxFrom_none (p : ImageryEntry → Bool) (l : List ImageryEntry)
    (h : ∀ x ∈ l, p x = false) : ∀ i, findIdxFrom p l i = none := by
  induction l with
  | nil => intro i; rfl
  | cons x xs ih =>
    intro i
    have hx := h x (by simp)
    simp only [findIdxFrom, hx]
    exact ih (fun y hy => h y (by simp [hy])) (i + 1)

/-- The second component of `#pushNewEntry` is always the freshly built
record. -/
theorem pushNewEntry_snd (fs : FileSystem) (st : ImageryState) (k : String)
    (i : Nat) (title dest : String) (isM : Bool) (path tt tp : String) :
    (pushNewEntry fs st k i title dest isM path tt tp).2 =
      pushedEntry fs i title dest isM path tt tp := rfl

/-- Effect of `#pushNewEntry` on a session none of whose entries carry a
`name` property (true of every entry the code ever builds): the record is
appended — never substituted — and the session cursor advances. -/
theorem pushNewEntry_spec (fs : FileSystem) (st : ImageryState) (k : String)
    (i : Nat) (title dest : String) (isM : Bool) (path tt tp : String)
    (s : EntriesCache)
    (hs : mget st.memory k = some s)
    (hnm : ∀ x ∈ s.okEntries, x.name = none) :
    mget (pushNewEntry fs st k i title dest isM path tt tp).1.memory k =
      some ({ s with
        okEntries := s.okEntries ++ [pushedEntry fs i title dest isM path tt tp],
        currentIndex := s.currentIndex + 1 })
    ∧ (∀ k2, k2 ≠ k →
        mget (pushNewEntry fs st k i title dest isM path tt tp).1.memory k2 =
          mget st.memory k2)
    ∧ (pushNewEntry fs st k i title dest isM path tt tp).1.activePath = st.activePath
    ∧ (pushNewEntry fs st k i title dest isM path tt tp).1.readFolderCalls =
        st.readFolderCalls := by
  have hfind : findIdxFrom
      (fun (item : ImageryEntry) => jsStrictEqOptStr item.name title) s.okEntries 0 = none := by
    refine findIdxFrom_none _ _ (fun x hx => ?_) 0
    rw [hnm x hx]
    rfl
  unfold pushNewEntry
  rw [hs]
  simp only [hfind]
  cases hdb : mget st.db st.activePath with
  | none =>
    simp only [hdb]
    exact ⟨mget_mset_self _ _ _, fun k2 hk2 => mget_mset_ne _ _ _ _ hk2, trivial, trivial⟩
  | some rows =>
    simp only [hdb]
    exact ⟨mget_mset_self _ _ _, fun k2 hk2 => mget_mset_ne _ _ _ _ hk2, trivial, trivial⟩

/-- `next` when the entry at the cursor is already resolved: serve it and
advance the cursor; nothing else changes and no filesystem call is made. -/
theorem next_cached (fs : FileSystem) (st : ImageryState) (c : EntriesCache)
    (e : ImageryEntry)
    (hA : ¬ st.activePath = "")
    (hc : mget st.memory st.activePath = some c)
    (he : c.okEntries[c.currentIndex]? = some e) :
    next fs st = ({ st with memory := mset st.memory st.activePath ({ c with currentIndex := c.currentIndex + 1 }) }, .entry e) := by
  unfold next nextPhase1
  rw [if_neg hA, hc]
  simp [he]

/-- `next` when the session is exhausted: the done sentinel. -/
theorem next_done (fs : FileSystem) (st : ImageryState) (c : EntriesCache)
    (hA : ¬ st.activePath = "")
    (hc : mget st.memory st.activePath = some c)
    (he : c.okEntries[c.currentIndex]? = none)
    (hlen : c.allEntries.length ≤ c.processed) :
    next fs st = ({ st with memory := mset st.memory st.activePath ({ c with processed := c.allEntries.length }) }, .done) := by
  unfold next nextPhase1
  rw [if_neg hA, hc]
  simp [he, hlen]

/-- `next` on a compatible file: the pending push resumes immediately. -/
theorem next_file (fs : FileSystem) (st : ImageryState) (c : EntriesCache)
    (raw : ImageryDirent)
    (hA : ¬ st.activePath = "")
    (hc : mget st.memory st.activePath = some c)
    (he : c.okEntries[c.currentIndex]? = none)
    (hlen : c.processed < c.allEntries.length)
    (hraw : c.allEntries[c.processed]? = some raw)
    (hf : raw.isFile = true)
    (hcomp : raw.isCompatibleFile = true) :
    next fs st =
      resumePush fs ({ st with memory := mset st.memory st.activePath ({ c with processed := c.processed + 1 }) })
        st.activePath c.currentIndex raw.name st.activePath true
        (pjoin st.activePath raw.name)
        (if isVideoFile (pjoin st.activePath raw.name) then FileGroup.VIDEO
          else FileGroup.IMAGE)
        (pjoin st.activePath raw.name) := by
  unfold next nextPhase1
  rw [if_neg hA, hc]
  simp [he, hraw, hf, hcomp, Nat.not_le.mpr hlen]

/-- `next` on an incompatible file: skip, with the cursor moved past it. -/
theorem next_incompatible (fs : FileSystem) (st : ImageryState)
    (c : EntriesCache) (raw : ImageryDirent)
    (hA : ¬ st.activePath = "")
    (hc : mget st.memory st.activePath = some c)
    (he : c.okEntries[c.currentIndex]? = none)
    (hlen : c.processed < c.allEntries.length)
    (hraw : c.allEntries[c.processed]? = some raw)
    (hf : raw.isFile = true)
    (hcomp : raw.isCompatibleFile = false) :
    next fs st = ({ st with memory := mset st.memory st.activePath ({ c with processed := c.processed + 1 }) }, .nullish) := by
  unfold next nextPhase1
  rw [if_neg hA, hc]
  simp [he, hraw, hf, hcomp, Nat.not_le.mpr hlen]

/-- `next` on a sub-folder: the pending BFS resumes immediately. -/
theorem next_dir (fs : FileSystem) (st : ImageryState) (c : EntriesCache)
    (raw : ImageryDirent)
    (hA : ¬ st.activePath = "")
    (hc : mget st.memory st.activePath = some c)
    (he : c.okEntries[c.currentIndex]? = none)
    (hlen : c.processed < c.allEntries.length)
    (hraw : c.allEntries[c.processed]? = some raw)
    (hf : raw.isFile = false)
    (hd : raw.isDirectory = true) :
    next fs st =
      resumeDir fs ({ st with memory := mset st.memory st.activePath ({ c with processed := c.processed + 1 }) })
        st.activePath raw.name (pjoin st.activePath raw.name) := by
  unfold next nextPhase1
  rw [if_neg hA, hc]
  simp [he, hraw, hf, hd, Nat.not_le.mpr hlen]

/-- `next` on a raw entry that is neither file nor directory: skip. -/
theorem next_neither (fs : FileSystem) (st : ImageryState) (c : EntriesCache)
    (raw : ImageryDirent)
    (hA : ¬ st.activePath = "")
    (hc : mget st.memory st.activePath = some c)
    (he : c.okEntries[c.currentIndex]? = none)
    (hlen : c.processed < c.allEntries.length)
    (hraw : c.allEntries[c.processed]? = some raw)
    (hf : raw.isFile = false)
    (hd : raw.isDirectory = false) :
    next fs st = ({ st with memory := mset st.memory st.activePath ({ c with processed := c.processed + 1 }) }, .nullish) := by
  unfold next nextPhase1
  rw [if_neg hA, hc]
  simp [he, hraw, hf, hd, Nat.not_le.mpr hlen]

/-- `dirname` never produces the empty string, so the
`firstValidParent || currentFolderPath` fallback never fires on it. -/
theorem dirname_ne_empty (s : String) : dirname s ≠ "" := by
  unfold dirname
  by_cases h1 : ((splitChars (Char.ofNat 47) s.data).dropLast).isEmpty = true
  · simp [h1]
  · simp only [h1, if_false]
    by_cases h2 : intercalateSlash ((splitChars (Char.ofNat 47) s.data).dropLast) = []
    · simp [h2]
    · simp only [h2, if_false]
      intro hcontra
      exact h2 (by simpa using congrArg String.data hcontra)

/-! ## C6 -/

/-- **C6**: the nested-thumbnail BFS dequeues at most 10 folders in total on
every filesystem (and, being a total function, always terminates), and when
the bound is exhausted with no media found, `next` skips the sub-folder —
returning `null` with the session cursor moved past it — rather than
reporting an error. -/
theorem c6_bfs_dequeues_bounded (fs : FileSystem) (st : ImageryState)
    (c : EntriesCache) (raw : ImageryDirent)
    (hA : ¬ st.activePath = "")
    (hc : mget st.memory st.activePath = some c)
    (he : c.okEntries[c.currentIndex]? = none)
    (hlen : c.processed < c.allEntries.length)
    (hraw : c.allEntries[c.processed]? = some raw)
    (hf : raw.isFile = false)
    (hd : raw.isDirectory = true)
    (hnone : (bfsLoop fs [pjoin st.activePath raw.name] 0).1 = .ok none) :
    (∀ q t, (bfsLoop fs q t).2 ≤ 10)
    ∧ (next fs st).2 = .nullish
    ∧ mget (next fs st).1.memory st.activePath = some ({ c with processed := c.processed + 1 }) := by
  refine ⟨fun q t => le_trans (bfsLoop_count_le fs q t) (Nat.sub_le _ _), ?_, ?_⟩
  · rw [next_dir fs st c raw hA hc he hlen hraw hf hd]
    unfold resumeDir
    simp only [hnone]
  · rw [next_dir fs st c raw hA hc he hlen hraw hf hd]
    unfold resumeDir
    simp only [hnone]
    exact mget_mset_self _ _ _

/-! ## C5 -/

/-- **C5**: when the BFS launched for a sub-folder finds a media-bearing
descendant folder `f.folder`, the resolved entry's thumbnail is that
folder's *first* compatible media child in enumeration order (no sorting),
and its `path` is the sub-folder itself when the find happened on the first
dequeue, and the *parent* of the found folder when it happened on a later
dequeue. -/
theorem c5_nested_thumbnail_choice (fs : FileSystem) (st : ImageryState)
    (c : EntriesCache) (raw : ImageryDirent) (f : BfsFound)
    (hA : ¬ st.activePath = "")
    (hc : mget st.memory st.activePath = some c)
    (he : c.okEntries[c.currentIndex]? = none)
    (hlen : c.processed < c.allEntries.length)
    (hraw : c.allEntries[c.processed]? = some raw)
    (hf : raw.isFile = false)
    (hd : raw.isDirectory = true)
    (hbfs : (bfsLoop fs [pjoin st.activePath raw.name] 0).1 = .ok (some f)) :
    ∃ e subs m, (next fs st).2 = .entry e
      ∧ fs.read f.folder = .ok subs
      ∧ subs.find? isMediaDirent = some m
      ∧ e.thumbnailPath = pjoin f.folder m.name
      ∧ e.isMedia = false
      ∧ (f.traversed = 0 → f.folder = pjoin st.activePath raw.name ∧ e.path = f.folder)
      ∧ (0 < f.traversed → e.path = dirname f.folder) := by
  obtain ⟨⟨subs, m, hrd, hfind, hname⟩, htr, hfirst⟩ :=
    bfsLoop_found fs [pjoin st.activePath raw.name] 0 f hbfs
  rw [next_dir fs st c raw hA hc he hlen hraw hf hd]
  unfold resumeDir
  simp only [hbfs]
  refine ⟨_, subs, m, rfl, hrd, hfind, ?_, ?_, ?_, ?_⟩
  · rw [pushNewEntry_snd]
    simp [pushedEntry, hname]
  · rw [pushNewEntry_snd]
    simp [pushedEntry]
  · intro h0
    obtain ⟨rest, hq⟩ := hfirst h0
    have hfold : f.folder = pjoin st.activePath raw.name :=
      (List.cons.inj hq.symm).1
    refine ⟨hfold, ?_⟩
    rw [pushNewEntry_snd]
    simp [pushedEntry, jsOrElse, h0]
  · intro hpos
    rw [pushNewEntry_snd]
    simp [pushedEntry, jsOrElse, Nat.lt_irrefl, hpos, dirname_ne_empty f.folder]

/-! ## C3 (amended) -/

/-- **C3** (amended): `next()` does throw at the pull boundary — when no
active path is set, or when the active path has no in-memory session, or on
a fatal enumeration error inside the BFS (the `next-content` IPC handler
registers no catch).  In every state that has an active path with a session
and whose `readFolder` calls succeed, the call returns an entry, `null`, or
the done sentinel, never a thrown error. -/
theorem c3_next_shape (fs : FileSystem) (st : ImageryState) (c : EntriesCache)
    (hA : ¬ st.activePath = "")
    (hc : mget st.memory st.activePath = some c)
    (hfs : ∀ p, ∃ l, fs.read p = .ok l) :
    ((∃ e, (next fs st).2 = .entry e) ∨ (next fs st).2 = .nullish ∨ (next fs st).2 = .done)
    ∧ ∀ er, (next fs st).2 ≠ .thrown er := by
  have hshape : (∃ e, (next fs st).2 = .entry e) ∨ (next fs st).2 = .nullish
      ∨ (next fs st).2 = .done := by
    cases hok : c.okEntries[c.currentIndex]? with
    | some e =>
      rw [next_cached fs st c e hA hc hok]
      exact .inl ⟨e, rfl⟩
    | none =>
      by_cases hlen : c.allEntries.length ≤ c.processed
      · rw [next_done fs st c hA hc hok hlen]
        exact .inr (.inr rfl)
      · have hlt : c.processed < c.allEntries.length := Nat.not_le.mp hlen
        cases hraw : c.allEntries[c.processed]? with
        | none =>
          exfalso
          have h2 : c.allEntries.length ≤ c.processed := by
            simpa using List.getElem?_eq_none_iff.mp hraw
          omega
        | some raw =>
          by_cases hfile : raw.isFile = true
          · by_cases hcomp : raw.isCompatibleFile = true
            · rw [next_file fs st c raw hA hc hok hlt hraw hfile hcomp]
              exact .inl ⟨_, rfl⟩
            · rw [next_incompatible fs st c raw hA hc hok hlt hraw hfile
                (by simpa using hcomp)]
              exact .inr (.inl rfl)
          · have hfile2 : raw.isFile = false := by simpa using hfile
            by_cases hdir : raw.isDirectory = true
            · rw [next_dir fs st c raw hA hc hok hlt hraw hfile2 hdir]
              unfold resumeDir
              cases hbfs : (bfsLoop fs [pjoin st.activePath raw.name] 0).1 with
              | error u =>
                cases u
                exact absurd hbfs (bfsLoop_no_fatal fs hfs _ _)
              | ok o =>
                cases o with
                | none => exact .inr (.inl (by simp only [hbfs]))
                | some f => simp only [hbfs]; exact .inl ⟨_, rfl⟩
            · rw [next_neither fs st c raw hA hc hok hlt hraw hfile2
                (by simpa using hdir)]
              exact .inr (.inl rfl)
  refine ⟨hshape, fun er h => ?_⟩
  rcases hshape with ⟨e, he⟩ | hn | hdn
  · rw [h] at he
    exact NextOutcome.noConfusion he
  · rw [h] at hn
    exact NextOutcome.noConfusion hn
  · rw [h] at hdn
    exact NextOutcome.noConfusion hdn

/-- The spec's worked example tree: `/photos` holds `a.jpg`, `b.mp4`, an
`empty` sub-folder, and `trip/vacation/beach.png` two levels deep. -/
def photoFS : FileSystem where
  read := fun p =>
    if p = "/photos" then
      .ok [⟨"a.jpg", true, false⟩, ⟨"b.mp4", true, false⟩,
        ⟨"empty", false, true⟩, ⟨"trip", false, true⟩]
    else if p = "/photos/trip" then .ok [⟨"vacation", false, true⟩]
    else if p = "/photos/trip/vacation" then .ok [⟨"beach.png", true, false⟩]
    else .ok []
  stat := fun _ => none

/-- Witness for C5 on the spec's worked example: resolving the `trip`
sub-folder of `/photos` picks `beach.png` (found on the second dequeue) and
sets the entry path to `/photos/trip`, the parent of `vacation`. -/
theorem c5_nested_thumbnail_choice_witness :
    ∃ e subs m,
      (next photoFS ⟨[("/photos", ⟨0, 0, [], [⟨0, "trip", false, false, true⟩], none⟩)], "/photos", [], 0⟩).2 = .entry e
      ∧ photoFS.read (BfsFound.folder ⟨"/photos/trip/vacation", 1, "beach.png"⟩) = .ok subs
      ∧ subs.find? isMediaDirent = some m
      ∧ e.thumbnailPath = pjoin (BfsFound.folder ⟨"/photos/trip/vacation", 1, "beach.png"⟩) m.name
      ∧ e.isMedia = false
      ∧ (BfsFound.traversed ⟨"/photos/trip/vacation", 1, "beach.png"⟩ = 0 →
          BfsFound.folder ⟨"/photos/trip/vacation", 1, "beach.png"⟩ = pjoin "/photos" "trip"
          ∧ e.path = BfsFound.folder ⟨"/photos/trip/vacation", 1, "beach.png"⟩)
      ∧ (0 < BfsFound.traversed ⟨"/photos/trip/vacation", 1, "beach.png"⟩ →
          e.path = dirname (BfsFound.folder ⟨"/photos/trip/vacation", 1, "beach.png"⟩)) :=
  c5_nested_thumbnail_choice photoFS
    ⟨[("/photos", ⟨0, 0, [], [⟨0, "trip", false, false, true⟩], none⟩)], "/photos", [], 0⟩
    ⟨0, 0, [], [⟨0, "trip", false, false, true⟩], none⟩
    ⟨0, "trip", false, false, true⟩
    ⟨"/photos/trip/vacation", 1, "beach.png"⟩
    (by decide) (by decide) (by decide) (by decide) (by decide) (by decide)
    (by decide) (by decide)

/-- Witness for C6 on a bottomless folder chain with no media: the search
gives up after 10 dequeues, the sub-folder is skipped with `null`, and the
cursor has moved past it. -/
theorem c6_bfs_dequeues_bounded_witness :
    (∀ q t, (bfsLoop deepFS q t).2 ≤ 10)
    ∧ (next deepFS ⟨[("/r", ⟨0, 0, [], [⟨0, "d0", false, false, true⟩], none⟩)], "/r", [], 0⟩).2 = .nullish
    ∧ mget (next deepFS ⟨[("/r", ⟨0, 0, [], [⟨0, "d0", false, false, true⟩], none⟩)], "/r", [], 0⟩).1.memory "/r" =
        some ⟨0, 1, [], [⟨0, "d0", false, false, true⟩], none⟩ :=
  c6_bfs_dequeues_bounded deepFS
    ⟨[("/r", ⟨0, 0, [], [⟨0, "d0", false, false, true⟩], none⟩)], "/r", [], 0⟩
    ⟨0, 0, [], [⟨0, "d0", false, false, true⟩], none⟩
    ⟨0, "d0", false, false, true⟩
    (by decide) (by decide) (by decide) (by decide) (by decide) (by decide)
    (by decide) (by decide)

/-- Witness for the amended C3 on a state with an active path, an (empty)
session and a healthy filesystem. -/
theorem c3_next_shape_witness :
    ((∃ e, (next emptyFS ⟨[("/p", ⟨0, 0, [], [], none⟩)], "/p", [], 0⟩).2 = .entry e)
      ∨ (next emptyFS ⟨[("/p", ⟨0, 0, [], [], none⟩)], "/p", [], 0⟩).2 = .nullish
      ∨ (next emptyFS ⟨[("/p", ⟨0, 0, [], [], none⟩)], "/p", [], 0⟩).2 = .done)
    ∧ ∀ er, (next emptyFS ⟨[("/p", ⟨0, 0, [], [], none⟩)], "/p", [], 0⟩).2 ≠ .thrown er :=
  c3_next_shape emptyFS ⟨[("/p", ⟨0, 0, [], [], none⟩)], "/p", [], 0⟩
    ⟨0, 0, [], [], none⟩ (by decide) (by decide) (fun p => ⟨[], rfl⟩)

/-! ## Lemmas about `prepareEntries` -/

/-- Stage 1 is the identity when the previous active path is empty or equal
to the target. -/
theorem prepStage1_skip (st : ImageryState) (p : String)
    (h : st.activePath = "" ∨ st.activePath = p) :
    prepStage1 st p = (st, none) := by
  unfold prepStage1
  rcases h with h | h <;> simp [h]

/-- Stage 1 keeps the state when the outgoing session exists and is not
explicitly flagged `persistData === false`. -/
theorem prepStage1_keep (st : ImageryState) (p : String) (s : EntriesCache)
    (hs : mget st.memory st.activePath = some s)
    (hp : s.persistData ≠ some false) :
    prepStage1 st p = (st, none) := by
  unfold prepStage1
  by_cases hg : st.activePath ≠ "" ∧ st.activePath ≠ p
  · simp [hg, hs, hp]
  · simp [hg]

/-- Stage 1 never throws when the previous active path is empty, the target
itself, or has a session in memory; and then it leaves the target session,
the target's database record, the active path and the enumeration counter
unchanged. -/
theorem prepStage1_safe (st : ImageryState) (p : String)
    (hguard : st.activePath = "" ∨ st.activePath = p
      ∨ (mget st.memory st.activePath).isSome) :
    (prepStage1 st p).2 = none
    ∧ (prepStage1 st p).1.activePath = st.activePath
    ∧ mget (prepStage1 st p).1.memory p = mget st.memory p
    ∧ (prepStage1 st p).1.readFolderCalls = st.readFolderCalls
    ∧ mget (prepStage1 st p).1.db p = mget st.db p := by
  unfold prepStage1
  by_cases hg : st.activePath ≠ "" ∧ st.activePath ≠ p
  · cases hs : mget st.memory st.activePath with
    | none =>
      exfalso
      rcases hguard with h | h | h
      · exact hg.1 h
      · exact hg.2 h
      · rw [hs] at h
        simp at h
    | some s =>
      rw [if_pos hg]
      simp only [hs]
      by_cases hp : s.persistData = some false
      · rw [if_pos hp]
        exact ⟨rfl, rfl, mget_mdel_ne _ _ _ (fun hpp => hg.2 hpp.symm), rfl,
          mget_mdel_ne _ _ _ (fun hpp => hg.2 hpp.symm)⟩
      · rw [if_neg hp]
        exact ⟨rfl, rfl, rfl, rfl, rfl⟩
  · simp [hg]

/-- `prepOpen` makes the requested folder the active path whenever the open
does not take the database-hit branch (the target is already in memory or has
no persisted record): the warm and cold opens both switch, the cold one
before enumerating.  On the database hit the switch sits after the load that
always rejects, so the active path is *not* switched there. -/
theorem prepOpen_active (fs : FileSystem) (st1 : ImageryState) (p : String)
    (hdb : mget st1.db p = none) :
    (prepOpen fs st1 p).1.activePath = p := by
  unfold prepOpen
  cases hmem : mget st1.memory p with
  | some s => simp
  | none =>
    simp only [hdb]
    cases hrd : fs.read p with
    | error e => simp [hrd]
    | ok entries => simp [hrd]

/-- `prepOpen` on a warm session: reset the cursor, switch the path. -/
theorem prepOpen_warm (fs : FileSystem) (st1 : ImageryState) (p : String)
    (s : EntriesCache) (hs : mget st1.memory p = some s) :
    prepOpen fs st1 p =
      ({ st1 with memory := mset st1.memory p ({ s with currentIndex := 0 }), activePath := p }, none) := by
  unfold prepOpen
  rw [hs]

/-- `prepOpen` never touches sessions of other folders. -/
theorem prepOpen_preserves_other (fs : FileSystem) (st1 : ImageryState)
    (p k : String) (hk : k ≠ p) :
    mget (prepOpen fs st1 p).1.memory k = mget st1.memory k := by
  unfold prepOpen
  cases hmem : mget st1.memory p with
  | some s => simp [mget_mset_ne _ _ _ _ hk]
  | none =>
    cases hdb : mget st1.db p with
    | some rows =>
      have hload : loadCachedEntry st1.db p = .error (.err "no such column: DESC") := by
        rw [loadCachedEntry, hdb]
      simp [hload]
    | none =>
      cases hrd : fs.read p with
      | error e => simp [hrd]
      | ok entries => simp [hrd, mget_mset_ne _ _ _ _ hk]

/-- `next` throws its session-lookup guard when the active path has no
session, and mutates nothing. -/
theorem next_missing_session (fs : FileSystem) (st2 : ImageryState)
    (h1 : ¬ st2.activePath = "")
    (h2 : mget st2.memory st2.activePath = none) :
    next fs st2 = (st2, .thrown (.err "Cannot find cache for current path")) := by
  unfold next nextPhase1
  rw [if_neg h1, h2]

/-- The synchronous prefix of `next` on a compatible file, as an equation on
`nextPhase1` (used to reason about the in-flight interleaving). -/
theorem nextPhase1_file_eq (st : ImageryState) (c : EntriesCache)
    (raw : ImageryDirent)
    (hA : ¬ st.activePath = "")
    (hc : mget st.memory st.activePath = some c)
    (he : c.okEntries[c.currentIndex]? = none)
    (hlen : c.processed < c.allEntries.length)
    (hraw : c.allEntries[c.processed]? = some raw)
    (hf : raw.isFile = true)
    (hcomp : raw.isCompatibleFile = true) :
    nextPhase1 st =
      .pendingPush ({ st with memory := mset st.memory st.activePath ({ c with processed := c.processed + 1 }) })
        st.activePath c.currentIndex raw.name st.activePath true
        (pjoin st.activePath raw.name)
        (if isVideoFile (pjoin st.activePath raw.name) then FileGroup.VIDEO else FileGroup.IMAGE)
        (pjoin st.activePath raw.name) := by
  unfold nextPhase1
  rw [if_neg hA, hc]
  simp [he, hraw, hf, hcomp, Nat.not_le.mpr hlen]

/-! ## C9 -/

/-- **C9**: reopening a folder whose session is already in memory only
resets that session's cursor to 0 and makes the path active — the resolved
and unresolved entry sequences are untouched and no enumeration happens
(`readFolder` is not called); and `next` serves a cached entry without any
filesystem call, changing nothing but the cursor. -/
theorem c9_warm_open_serves_cache (fs : FileSystem) (st : ImageryState)
    (P : String) (s : EntriesCache)
    (hs : mget st.memory P = some s)
    (hguard : st.activePath = "" ∨ st.activePath = P
      ∨ (mget st.memory st.activePath).isSome) :
    (prepareEntries fs st P).2 = none
    ∧ (prepareEntries fs st P).1.activePath = P
    ∧ mget (prepareEntries fs st P).1.memory P = some ({ s with currentIndex := 0 })
    ∧ (prepareEntries fs st P).1.readFolderCalls = st.readFolderCalls
    ∧ (∀ st2 c e, ¬ st2.activePath = "" → mget st2.memory st2.activePath = some c →
        c.okEntries[c.currentIndex]? = some e →
        next fs st2 = ({ st2 with memory := mset st2.memory st2.activePath ({ c with currentIndex := c.currentIndex + 1 }) }, .entry e)) := by
  obtain ⟨h2, h3, h4, h5, _⟩ := prepStage1_safe st P hguard
  have hprep : prepareEntries fs st P = prepOpen fs (prepStage1 st P).1 P := by
    unfold prepareEntries
    rcases hpr : prepStage1 st P with ⟨st1, e1⟩
    rw [hpr] at h2
    simp only at h2
    subst h2
    rfl
  have hs1 : mget (prepStage1 st P).1.memory P = some s := by rw [h4, hs]
  rw [hprep, prepOpen_warm fs (prepStage1 st P).1 P s hs1]
  refine ⟨rfl, rfl, mget_mset_self _ _ _, h5, ?_⟩
  intro st2 c e h1 hc2 he2
  exact next_cached fs st2 c e h1 hc2 he2

/-- Witness for C9: reopening `/p`, whose session (one resolved entry, one
raw entry, cursor at 1) is in memory, resets only the cursor. -/
theorem c9_warm_open_serves_cache_witness :
    (prepareEntries emptyFS ⟨[("/p", ⟨1, 1, [entryAJpg], [⟨0, "a.jpg", true, true, false⟩], none⟩)], "/p", [], 3⟩ "/p").2 = none
    ∧ (prepareEntries emptyFS ⟨[("/p", ⟨1, 1, [entryAJpg], [⟨0, "a.jpg", true, true, false⟩], none⟩)], "/p", [], 3⟩ "/p").1.activePath = "/p"
    ∧ mget (prepareEntries emptyFS ⟨[("/p", ⟨1, 1, [entryAJpg], [⟨0, "a.jpg", true, true, false⟩], none⟩)], "/p", [], 3⟩ "/p").1.memory "/p" =
        some ⟨0, 1, [entryAJpg], [⟨0, "a.jpg", true, true, false⟩], none⟩
    ∧ (prepareEntries emptyFS ⟨[("/p", ⟨1, 1, [entryAJpg], [⟨0, "a.jpg", true, true, false⟩], none⟩)], "/p", [], 3⟩ "/p").1.readFolderCalls = 3
    ∧ (∀ st2 c e, ¬ st2.activePath = "" → mget st2.memory st2.activePath = some c →
        c.okEntries[c.currentIndex]? = some e →
        next emptyFS st2 = ({ st2 with memory := mset st2.memory st2.activePath ({ c with currentIndex := c.currentIndex + 1 }) }, .entry e)) :=
  c9_warm_open_serves_cache emptyFS
    ⟨[("/p", ⟨1, 1, [entryAJpg], [⟨0, "a.jpg", true, true, false⟩], none⟩)], "/p", [], 3⟩
    "/p" ⟨1, 1, [entryAJpg], [⟨0, "a.jpg", true, true, false⟩], none⟩
    (by decide) (.inr (.inl (by decide)))

/-! ## C10 (amended) -/

/-- **C10** (amended): whenever the stage-1 guard cannot trip over a missing
previous session (previous active path empty, equal to the target, or
present in memory) *and* the target has no persisted database record,
`prepareEntries(folderPath)` leaves `folderPath` active on completion
whether it returns normally or throws — the switch happens before
enumeration, so a failed cold open leaves the new path active with no
session — and from any such no-session state `next()` throws its
session-lookup guard without touching any state, rather than serving the
previous folder's entries.  (Without the provisos the claim fails: see the
counterexample — a stage-1 `TypeError`, or the database-hit load rejecting
over its invalid order clause, is thrown before the switch.) -/
theorem c10_prepare_switches_before_enumeration (fs : FileSystem)
    (st : ImageryState) (folderPath : String)
    (hguard : st.activePath = "" ∨ st.activePath = folderPath
      ∨ (mget st.memory st.activePath).isSome)
    (hdb : mget st.db folderPath = none) :
    (prepareEntries fs st folderPath).1.activePath = folderPath
    ∧ (∀ st2 : ImageryState, ¬ st2.activePath = "" →
        mget st2.memory st2.activePath = none →
        next fs st2 = (st2, .thrown (.err "Cannot find cache for current path"))) := by
  obtain ⟨h2, _, _, _, h6⟩ := prepStage1_safe st folderPath hguard
  have hprep : prepareEntries fs st folderPath = prepOpen fs (prepStage1 st folderPath).1 folderPath := by
    unfold prepareEntries
    rcases hpr : prepStage1 st folderPath with ⟨st1, e1⟩
    rw [hpr] at h2
    simp only at h2
    subst h2
    rfl
  rw [hprep]
  exact ⟨prepOpen_active fs _ folderPath (h6.trans hdb),
    fun st2 h1 hm => next_missing_session fs st2 h1 hm⟩

/-- Witness for the amended C10: a cold open of `/b` (no database record)
from an active `/a` with a live session switches the active path to `/b`;
and the no-session guard clause at a concrete no-session state. -/
theorem c10_prepare_switches_witness :
    (prepareEntries failFS ⟨[("/a", ⟨0, 0, [], [], none⟩)], "/a", [], 0⟩ "/b").1.activePath = "/b"
    ∧ (∀ st2 : ImageryState, ¬ st2.activePath = "" →
        mget st2.memory st2.activePath = none →
        next failFS st2 = (st2, .thrown (.err "Cannot find cache for current path"))) :=
  c10_prepare_switches_before_enumeration failFS
    ⟨[("/a", ⟨0, 0, [], [], none⟩)], "/a", [], 0⟩ "/b"
    (.inr (.inr (by decide))) (by decide)

/-! ## C1 -/

/-- **C1** (counterexample): a `next()` call in flight when the active
folder switches from `/a` to `/b` does *not* return `null` and does *not*
leave `/a`'s session unchanged.  Concretely: `/a`'s fresh session holds one
compatible file `f.jpg`; the call suspends at the metadata `await`, the
switch to `/b` completes, and the resumed call still appends the resolved
entry to `/a`'s session, advances both counters, and returns the entry. -/
theorem c1_stale_call_returns_entry :
    (nextDuringSwitch emptyFS ⟨[("/a", ⟨0, 0, [], [⟨0, "f.jpg", true, true, false⟩], none⟩)], "/a", [], 0⟩ "/b").2.2 =
      .entry ⟨0, "f.jpg", "/a", true, "/a/f.jpg", "image", "/a/f.jpg", "/a/f.jpg", none, none, none, none, none⟩
    ∧ (nextDuringSwitch emptyFS ⟨[("/a", ⟨0, 0, [], [⟨0, "f.jpg", true, true, false⟩], none⟩)], "/a", [], 0⟩ "/b").1.activePath = "/b"
    ∧ mget (nextDuringSwitch emptyFS ⟨[("/a", ⟨0, 0, [], [⟨0, "f.jpg", true, true, false⟩], none⟩)], "/a", [], 0⟩ "/b").1.memory "/a" =
        some ⟨1, 1, [⟨0, "f.jpg", "/a", true, "/a/f.jpg", "image", "/a/f.jpg", "/a/f.jpg", none, none, none, none, none⟩], [⟨0, "f.jpg", true, true, false⟩], none⟩
    ∧ (NextOutcome.entry ⟨0, "f.jpg", "/a", true, "/a/f.jpg", "image", "/a/f.jpg", "/a/f.jpg", none, none, none, none, none⟩ ≠ .nullish)
    ∧ ((⟨1, 1, [⟨0, "f.jpg", "/a", true, "/a/f.jpg", "image", "/a/f.jpg", "/a/f.jpg", none, none, none, none, none⟩], [⟨0, "f.jpg", true, true, false⟩], none⟩ : EntriesCache) ≠ ⟨0, 0, [], [⟨0, "f.jpg", true, true, false⟩], none⟩) := by
  refine ⟨by decide, by decide, by decide, by decide, by decide⟩

/-- **C1** (amended): an in-flight `next()` call for a path switched away
mid-call completes instead of returning `null`: it appends the resolved
entry to the now-stale session and advances that session's cursor, and the
entry it returns carries the *old* path in its `destination` field.  What
keeps the previous folder's entries out of the next folder's view is the
renderer guard `DirectoryManager.notAllowed`, which rejects every card whose
destination differs from the folder the container currently shows. -/
theorem c1_stale_inflight_mutates (fs : FileSystem) (st : ImageryState)
    (c : EntriesCache) (raw : ImageryDirent) (newPath : String) (ex : Bool)
    (hA : ¬ st.activePath = "")
    (hc : mget st.memory st.activePath = some c)
    (he : c.okEntries[c.currentIndex]? = none)
    (hlen : c.processed < c.allEntries.length)
    (hraw : c.allEntries[c.processed]? = some raw)
    (hf : raw.isFile = true)
    (hcomp : raw.isCompatibleFile = true)
    (hnew : ¬ newPath = st.activePath)
    (hpersist : c.persistData ≠ some false)
    (hnm : ∀ x ∈ c.okEntries, x.name = none) :
    ∃ e, (nextDuringSwitch fs st newPath).2.2 = .entry e
      ∧ e.destination = st.activePath
      ∧ e.title = raw.name
      ∧ mget (nextDuringSwitch fs st newPath).1.memory st.activePath =
          some ({ c with currentIndex := c.currentIndex + 1, processed := c.processed + 1, okEntries := c.okEntries ++ [e] })
      ∧ notAllowed ex e.destination newPath = true := by
  have hphase := nextPhase1_file_eq st c raw hA hc he hlen hraw hf hcomp
  have hs1 : mget (mset st.memory st.activePath ({ c with processed := c.processed + 1 })) st.activePath =
      some ({ c with processed := c.processed + 1 }) := mget_mset_self _ _ _
  have hstage : prepStage1 ({ st with memory := mset st.memory st.activePath ({ c with processed := c.processed + 1 }) }) newPath =
      (({ st with memory := mset st.memory st.activePath ({ c with processed := c.processed + 1 }) } : ImageryState), none) :=
    prepStage1_keep _ newPath ({ c with processed := c.processed + 1 }) hs1 hpersist
  have hprep : prepareEntries fs ({ st with memory := mset st.memory st.activePath ({ c with processed := c.processed + 1 }) }) newPath =
      prepOpen fs ({ st with memory := mset st.memory st.activePath ({ c with processed := c.processed + 1 }) }) newPath := by
    unfold prepareEntries
    rw [hstage]
  have hsess2 : mget (prepOpen fs ({ st with memory := mset st.memory st.activePath ({ c with processed := c.processed + 1 }) }) newPath).1.memory st.activePath =
      some ({ c with processed := c.processed + 1 }) := by
    rw [prepOpen_preserves_other fs _ newPath st.activePath (fun hh => hnew hh.symm)]
    exact hs1
  obtain ⟨hmem3, hother3, hact3, hcount3⟩ :=
    pushNewEntry_spec fs
      (prepOpen fs ({ st with memory := mset st.memory st.activePath ({ c with processed := c.processed + 1 }) }) newPath).1
      st.activePath c.currentIndex raw.name st.activePath true
      (pjoin st.activePath raw.name)
      (if isVideoFile (pjoin st.activePath raw.name) then FileGroup.VIDEO else FileGroup.IMAGE)
      (pjoin st.activePath raw.name)
      ({ c with processed := c.processed + 1 }) hsess2 hnm
  refine ⟨pushedEntry fs c.currentIndex raw.name st.activePath true
      (pjoin st.activePath raw.name)
      (if isVideoFile (pjoin st.activePath raw.name) then FileGroup.VIDEO else FileGroup.IMAGE)
      (pjoin st.activePath raw.name), ?_, rfl, rfl, ?_, ?_⟩
  · unfold nextDuringSwitch
    rw [hphase]
    simp only [hprep]
    rfl
  · unfold nextDuringSwitch
    rw [hphase]
    simp only [hprep]
    exact hmem3
  · have hnewsym : ¬ st.activePath = newPath := fun hh => hnew hh.symm
    simp [notAllowed, pushedEntry, hnewsym]

/-- Witness for the amended C1 at the concrete `/a` → `/b` switch. -/
theorem c1_stale_inflight_mutates_witness :
    ∃ e, (nextDuringSwitch emptyFS ⟨[("/a", ⟨0, 0, [], [⟨0, "f.jpg", true, true, false⟩], none⟩)], "/a", [], 0⟩ "/b").2.2 = .entry e
      ∧ e.destination = "/a"
      ∧ e.title = "f.jpg"
      ∧ mget (nextDuringSwitch emptyFS ⟨[("/a", ⟨0, 0, [], [⟨0, "f.jpg", true, true, false⟩], none⟩)], "/a", [], 0⟩ "/b").1.memory "/a" =
          some ⟨1, 1, [] ++ [e], [⟨0, "f.jpg", true, true, false⟩], none⟩
      ∧ notAllowed false e.destination "/b" = true :=
  c1_stale_inflight_mutates emptyFS
    ⟨[("/a", ⟨0, 0, [], [⟨0, "f.jpg", true, true, false⟩], none⟩)], "/a", [], 0⟩
    ⟨0, 0, [], [⟨0, "f.jpg", true, true, false⟩], none⟩
    ⟨0, "f.jpg", true, true, false⟩ "/b" false
    (by decide) (by decide) (by decide) (by decide) (by decide) (by decide)
    (by decide) (by decide) (by decide) (by decide)

/-! ## C4: a pure-media folder yields all entries, then the done sentinel -/

/-- Drive the pull protocol: iterate `next` and collect the outcomes in call
order. -/
def runNexts (fs : FileSystem) : Nat → ImageryState → ImageryState × List NextOutcome
  | 0, st => (st, [])
  | m + 1, st =>
    let r := next fs st
    let rr := runNexts fs m r.1
    (rr.1, r.2 :: rr.2)

/-- The entry the compatible-file branch builds for file `nm` of folder `P`
at index `i`. -/
def builtEntry (fs : FileSystem) (P nm : String) (i : Nat) : ImageryEntry :=
  pushedEntry fs i nm P true (pjoin P nm)
    (if isVideoFile (pjoin P nm) then FileGroup.VIDEO else FileGroup.IMAGE)
    (pjoin P nm)

/-- Resolved entries for a run of file names, indices counting from `i`. -/
def builtFrom (fs : FileSystem) (P : String) : List String → Nat → List ImageryEntry
  | [], _ => []
  | n :: rest, i => builtEntry fs P n i :: builtFrom fs P rest (i + 1)

/-- The raw listing of a folder holding exactly these plain files. -/
def fileDirents (names : List String) : List FSDirent :=
  names.map (fun n => ⟨n, true, false⟩)

/-- Cache state after the first `k` files of a pure-media folder have been
resolved (`rf` = value of the enumeration counter). -/
def fileStateAt (fs : FileSystem) (P : String) (names : List String) (k rf : Nat) :
    ImageryState :=
  ⟨[(P, ⟨k, k, builtFrom fs P (names.take k) 0, classifyFrom (fileDirents names) 0, none⟩)], P, [], rf⟩

theorem builtFrom_length (fs : FileSystem) (P : String) (l : List String) :
    ∀ i, (builtFrom fs P l i).length = l.length := by
  induction l with
  | nil => intro i; rfl
  | cons n rest ih => intro i; simp [builtFrom, ih]

theorem builtFrom_append (fs : FileSystem) (P : String) (l1 l2 : List String) :
    ∀ i, builtFrom fs P (l1 ++ l2) i = builtFrom fs P l1 i ++ builtFrom fs P l2 (i + l1.length) := by
  induction l1 with
  | nil => intro i; simp [builtFrom]
  | cons n rest ih =>
    intro i
    have harith : i + 1 + rest.length = i + (rest.length + 1) := by omega
    simp [builtFrom, ih (i + 1), harith]

theorem builtFrom_names_none (fs : FileSystem) (P : String) (l : List String) :
    ∀ i, ∀ x ∈ builtFrom fs P l i, x.name = none := by
  induction l with
  | nil => intro i x hx; simp [builtFrom] at hx
  | cons n rest ih =>
    intro i x hx
    simp only [builtFrom, List.mem_cons] at hx
    rcases hx with hx | hx
    · subst hx; rfl
    · exact ih (i + 1) x hx

theorem classifyFrom_length (ds : List FSDirent) :
    ∀ i, (classifyFrom ds i).length = ds.length := by
  induction ds with
  | nil => intro i; rfl
  | cons d rest ih => intro i; simp [classifyFrom, ih]

theorem classifyFrom_getElem? (ds : List FSDirent) :
    ∀ i j, (classifyFrom ds i)[j]? =
      (ds[j]?).map (fun d => (⟨i + j, d.name, d.isFile, d.isFile && isMediaFile d.name, d.isDirectory⟩ : ImageryDirent)) := by
  induction ds with
  | nil => intro i j; simp [classifyFrom]
  | cons d rest ih =>
    intro i j
    cases j with
    | zero => simp [classifyFrom]
    | succ jj =>
      have harith : i + 1 + jj = i + (jj + 1) := by omega
      simp only [classifyFrom, List.getElem?_cons_succ, ih (i + 1) jj, harith]

/-- One pull from the `k`-th state of a pure-media folder resolves file `k`
at index `k` and advances both counters. -/
theorem c4_step (fs : FileSystem) (P : String) (names : List String) (k rf : Nat)
    (hP : ¬ P = "")
    (hmedia : ∀ n ∈ names, isMediaFile n = true)
    (hk : k < names.length) :
    next fs (fileStateAt fs P names k rf) =
      (fileStateAt fs P names (k + 1) rf, .entry (builtEntry fs P (names.getD k "") k)) := by
  have hnk : names[k]? = some (names.getD k "") := by
    rw [List.getD_eq_getElem?_getD, List.getElem?_eq_getElem hk]
    rfl
  have hmem : names.getD k "" ∈ names := by
    have h1 : names.getD k "" = names[k] := by
      rw [List.getD_eq_getElem?_getD, List.getElem?_eq_getElem hk]
      rfl
    rw [h1]
    exact names.getElem_mem hk
  have hcomp : isMediaFile (names.getD k "") = true := hmedia _ hmem
  have hc : mget (fileStateAt fs P names k rf).memory P =
      some ⟨k, k, builtFrom fs P (names.take k) 0, classifyFrom (fileDirents names) 0, none⟩ := by
    simp [fileStateAt, mget]
  have hlenok : (builtFrom fs P (names.take k) 0).length = k := by
    rw [builtFrom_length]
    simp [List.length_take]
    omega
  have he : (builtFrom fs P (names.take k) 0)[k]? = none := by
    rw [List.getElem?_eq_none]
    omega
  have hlenall : (classifyFrom (fileDirents names) 0).length = names.length := by
    rw [classifyFrom_length]
    simp [fileDirents]
  have h2 : (fileDirents names)[k]? = some ⟨names.getD k "", true, false⟩ := by
    unfold fileDirents
    rw [List.getElem?_map, hnk]
    rfl
  have hraw : (classifyFrom (fileDirents names) 0)[k]? =
      some ⟨0 + k, names.getD k "", true, true && isMediaFile (names.getD k ""), false⟩ := by
    rw [classifyFrom_getElem?, h2]
    rfl
  have hfind : findIdxFrom
      (fun (item : ImageryEntry) => jsStrictEqOptStr item.name (names.getD k ""))
      (builtFrom fs P (names.take k) 0) 0 = none := by
    refine findIdxFrom_none _ _ (fun x hx => ?_) 0
    rw [builtFrom_names_none fs P (names.take k) 0 x hx]
    rfl
  have htake : names.take (k + 1) = names.take k ++ [names.getD k ""] := by
    rw [List.take_succ, hnk]
    rfl
  have hmin : k ⊓ names.length = k := by omega
  have hbuilt : builtFrom fs P (names.take (k + 1)) 0 =
      builtFrom fs P (names.take k) 0 ++ [builtEntry fs P (names.getD k "") k] := by
    rw [htake, builtFrom_append]
    simp [hlenok, builtFrom, hmin]
  have hfile := next_file fs (fileStateAt fs P names k rf)
    ⟨k, k, builtFrom fs P (names.take k) 0, classifyFrom (fileDirents names) 0, none⟩
    ⟨0 + k, names.getD k "", true, true && isMediaFile (names.getD k ""), false⟩
    hP hc he (by rw [hlenall]; exact hk) hraw rfl
    (by show (true && isMediaFile (names.getD k "")) = true; rw [Bool.true_and]; exact hcomp)
  have hcomp2 : isMediaFile (names[k]?.getD "") = true := by
    rw [hnk]
    exact hcomp
  have hfind2 : findIdxFrom
      (fun (item : ImageryEntry) => jsStrictEqOptStr item.name (names[k]?.getD ""))
      (builtFrom fs P (names.take k) 0) 0 = none := by
    refine findIdxFrom_none _ _ (fun x hx => ?_) 0
    rw [builtFrom_names_none fs P (names.take k) 0 x hx]
    rfl
  rw [hfile]
  unfold resumePush pushNewEntry
  simp [fileStateAt, mget, mset, hfind, hfind2, hbuilt, builtEntry, hmin, hcomp2]

/-- Iterating `next` from the `k`-th state resolves the remaining files in
order. -/
theorem c4_run (fs : FileSystem) (P : String) (names : List String)
    (hP : ¬ P = "")
    (hmedia : ∀ n ∈ names, isMediaFile n = true) :
    ∀ (m k rf : Nat), k + m ≤ names.length →
    runNexts fs m (fileStateAt fs P names k rf) =
      (fileStateAt fs P names (k + m) rf,
        (List.range' k m).map (fun i => .entry (builtEntry fs P (names.getD i "") i))) := by
  intro m
  induction m with
  | zero =>
    intro k rf h
    simp [runNexts, List.range']
  | succ mm ih =>
    intro k rf h
    have hstep := c4_step fs P names k rf hP hmedia (by omega)
    simp only [runNexts, hstep]
    rw [ih (k + 1) rf (by omega)]
    have harith : k + 1 + mm = k + (mm + 1) := by omega
    rw [harith]
    simp [List.range']

/-- Once the cursor has passed every file, `next` returns the done sentinel
and the state is a fixpoint. -/
theorem c4_done_step (fs : FileSystem) (P : String) (names : List String)
    (rf : Nat) (hP : ¬ P = "") :
    next fs (fileStateAt fs P names names.length rf) =
      (fileStateAt fs P names names.length rf, .done) := by
  have hlenall : (classifyFrom (fileDirents names) 0).length = names.length := by
    rw [classifyFrom_length]
    simp [fileDirents]
  have hlenok : (builtFrom fs P (names.take names.length) 0).length = names.length := by
    rw [builtFrom_length]
    simp
  have hc : mget (fileStateAt fs P names names.length rf).memory P =
      some ⟨names.length, names.length, builtFrom fs P (names.take names.length) 0,
        classifyFrom (fileDirents names) 0, none⟩ := by
    simp [fileStateAt, mget]
  have he : (builtFrom fs P (names.take names.length) 0)[names.length]? = none := by
    rw [List.getElem?_eq_none]
    omega
  have hdone := next_done fs (fileStateAt fs P names names.length rf)
    ⟨names.length, names.length, builtFrom fs P (names.take names.length) 0,
      classifyFrom (fileDirents names) 0, none⟩
    hP hc he (by rw [hlenall])
  rw [hdone]
  simp [fileStateAt, mset, hlenall]

/-- Every further pull keeps answering the done sentinel. -/
theorem c4_done_iter (fs : FileSystem) (P : String) (names : List String)
    (rf : Nat) (hP : ¬ P = "") :
    ∀ m, runNexts fs m (fileStateAt fs P names names.length rf) =
      (fileStateAt fs P names names.length rf, List.replicate m .done) := by
  intro m
  induction m with
  | zero => simp [runNexts]
  | succ mm ih =>
    simp only [runNexts, c4_done_step fs P names rf hP, ih]
    simp [List.replicate]

/-- **C4**: opening a folder that contains exactly the compatible media
files `names` (and nothing else) and pulling `next()` repeatedly yields
exactly `names.length` resolved entries whose `index` values are
`0, 1, 2, …` (strictly increasing), after which every further call returns
the terminal done sentinel (distinct from `null`); and the cached-result
branch returns the entry stored at the cursor position and then advances
the cursor by one. -/
theorem c4_media_only_folder (fs : FileSystem) (P : String)
    (names : List String) (m : Nat)
    (hP : ¬ P = "")
    (hmedia : ∀ n ∈ names, isMediaFile n = true)
    (hcold : fs.read P = .ok (fileDirents names)) :
    prepareEntries fs initialState P = (fileStateAt fs P names 0 1, none)
    ∧ (runNexts fs names.length (fileStateAt fs P names 0 1)).2 =
        (List.range' 0 names.length).map (fun i => .entry (builtEntry fs P (names.getD i "") i))
    ∧ (∀ i, (builtEntry fs P (names.getD i "") i).index = i)
    ∧ (runNexts fs m (runNexts fs names.length (fileStateAt fs P names 0 1)).1).2 =
        List.replicate m .done
    ∧ (∀ st2 c e, ¬ st2.activePath = "" → mget st2.memory st2.activePath = some c →
        c.okEntries[c.currentIndex]? = some e →
        next fs st2 = ({ st2 with memory := mset st2.memory st2.activePath ({ c with currentIndex := c.currentIndex + 1 }) }, .entry e)) := by
  have hrun := c4_run fs P names hP hmedia names.length 0 1 (by omega)
  refine ⟨?_, ?_, fun i => rfl, ?_, ?_⟩
  · unfold prepareEntries prepStage1 prepOpen
    simp [initialState, mget, mset, hcold, fileStateAt, builtFrom]
  · rw [hrun]
  · rw [hrun]
    have h0 : 0 + names.length = names.length := by omega
    show (runNexts fs m (fileStateAt fs P names (0 + names.length) 1)).2 = List.replicate m .done
    rw [h0, c4_done_iter fs P names 1 hP m]
  · intro st2 c e h1 h2 h3
    exact next_cached fs st2 c e h1 h2 h3

/-- A folder `/m` holding exactly two compatible media files. -/
def mediaFS : FileSystem :=
  ⟨fun p => if p = "/m" then .ok [⟨"a.jpg", true, false⟩, ⟨"b.mp4", true, false⟩] else .ok [],
    fun _ => none⟩

/-- Witness for C4: a cold open of `/m` (two media files) yields the two
entries at indices 0 and 1, then the done sentinel on every further pull. -/
theorem c4_media_only_folder_witness :
    prepareEntries mediaFS initialState "/m" = (fileStateAt mediaFS "/m" ["a.jpg", "b.mp4"] 0 1, none)
    ∧ (runNexts mediaFS 2 (fileStateAt mediaFS "/m" ["a.jpg", "b.mp4"] 0 1)).2 =
        (List.range' 0 2).map (fun i => .entry (builtEntry mediaFS "/m" (["a.jpg", "b.mp4"].getD i "") i))
    ∧ (∀ i, (builtEntry mediaFS "/m" (["a.jpg", "b.mp4"].getD i "") i).index = i)
    ∧ (runNexts mediaFS 3 (runNexts mediaFS 2 (fileStateAt mediaFS "/m" ["a.jpg", "b.mp4"] 0 1)).1).2 =
        List.replicate 3 .done
    ∧ (∀ st2 c e, ¬ st2.activePath = "" → mget st2.memory st2.activePath = some c →
        c.okEntries[c.currentIndex]? = some e →
        next mediaFS st2 = ({ st2 with memory := mset st2.memory st2.activePath ({ c with currentIndex := c.currentIndex + 1 }) }, .entry e)) :=
  c4_media_only_folder mediaFS "/m" ["a.jpg", "b.mp4"] 3 (by decide) (by decide) (by decide)
